import Mathlib

/-!
Verification development for the GeoStatsr region resolver
(`countrycoder.go` — the country/region reverse-geocoding core).

The Go source is shallowly embedded: Go strings become Lean `String`
(sequences of unicode code points, as in Go's rune view used by `regexp`
and `strings.ToUpper`); `float64` coordinates become `ℚ` (the claims under
study concern control flow and list order, not floating-point rounding);
Go's `nil`-able pointers become `Option`; the Go
`map[string]*geojson.Feature` becomes an insertion list whose lookup
returns the most recently inserted binding, matching Go map overwrite
semantics.
-/

/-- Model of Go `unicode.ToUpper` as used by `strings.ToUpper` on the ASCII
range: 'a'..'z' (code points 97..122) map to 'A'..'Z'; every other code
point is left unchanged.  (The identifiers the resolver handles are ASCII;
on non-ASCII letters Go's simple case mapping is likewise idempotent, which
is the only property the theorems below use.) -/
def goToUpper (c : Char) : Char :=
  if 97 ≤ c.toNat ∧ c.toNat ≤ 122 then Char.ofNat (c.toNat - 32) else c

/-- Model of Go `strings.ToUpper` (per-rune mapping). -/
def upperStr (s : String) : String :=
  ⟨s.data.map goToUpper⟩

/-- Model of Go `unicode.ToLower` on the ASCII range ('A'..'Z' to 'a'..'z'),
used by `strings.ToLower` in `CodeByLocation` and `getCodeFromFeature`. -/
def goToLower (c : Char) : Char :=
  if 65 ≤ c.toNat ∧ c.toNat ≤ 90 then Char.ofNat (c.toNat + 32) else c

/-- Model of Go `strings.ToLower` (per-rune mapping). -/
def lowerStr (s : String) : String :=
  ⟨s.data.map goToLower⟩

/-- ASCII word character, for the RE2 `\b` assertion: `[0-9A-Za-z_]`. -/
def isWordChar (c : Char) : Bool :=
  (97 ≤ c.toNat && c.toNat ≤ 122) || (65 ≤ c.toNat && c.toNat ≤ 90) ||
    (48 ≤ c.toNat && c.toNat ≤ 57) || c == '_'

/-- The character class `[-_ .,'()&\[\]/]` of `idFilterRegex`
(`Char.ofNat 39` is the apostrophe). -/
def isStripChar (c : Char) : Bool :=
  c == '-' || c == '_' || c == ' ' || c == '.' || c == ',' || c == Char.ofNat 39 ||
    c == '(' || c == ')' || c == '&' || c == '[' || c == ']' || c == '/'

/-- RE2 `\b` after the last letter of a stop word: the next rune must not be
a word character (or the text ends). -/
def boundaryEnd (l : List Char) : Bool :=
  match l with
  | [] => true
  | c :: _ => !isWordChar c

/-- Stop-word test of `idFilterRegex` at the current position: the head rune
`c` followed by `cs`.  Returns the length of the stop word deleted here
(3 for `and`/`the`, 2 for `of`/`el`/`la`/`de`), or 0 when the stop-word
alternative does not match.  `prevW` says whether the previous rune of the
original text is a word character: every stop word starts with a word
character, so the leading `\b` holds exactly when `prevW` is false; the
trailing `\b` is `boundaryEnd`.  The regex has no `(?i)` flag, so only the
lower-case spellings match.  The six words start with six distinct letters,
hence no overlap between the alternatives. -/
def stopHit (prevW : Bool) (c : Char) (cs : List Char) : Nat :=
  if prevW then 0
  else
    match cs with
    | c2 :: c3 :: rest =>
      if (c == 'a' && c2 == 'n' && c3 == 'd' || c == 't' && c2 == 'h' && c3 == 'e')
          && boundaryEnd rest then 3
      else if (c == 'o' && c2 == 'f' || c == 'e' && c2 == 'l' ||
               c == 'l' && c2 == 'a' || c == 'd' && c2 == 'e')
          && boundaryEnd (c3 :: rest) then 2
      else 0
    | [c2] =>
      if c == 'o' && c2 == 'f' || c == 'e' && c2 == 'l' ||
         c == 'l' && c2 == 'a' || c == 'd' && c2 == 'e' then 2
      else 0
    | [] => 0

/-- One pass of Go `idFilterRegex.ReplaceAllString(id, "")` for
`idFilterRegex = \b(and|the|of|el|la|de)\b|[-_ .,'()&\[\]/]`, walking the
runes left to right and deleting successive non-overlapping leftmost
matches (RE2 evaluates `\b` against the original input, so the carried
`prevW` flag is the word-character status of the previous rune of the
input).  At each position the stop-word alternative is tried first, then
the character class (which deletes one rune), otherwise the rune is kept.
`fuel` is a termination device only: each step consumes one fuel unit and
at least one rune, so any `fuel ≥ l.length` computes the full scan
(`stripScan` below passes `l.length`). -/
def stripGo (fuel : Nat) (prevW : Bool) (l : List Char) : List Char :=
  match fuel, l with
  | 0, _ => []
  | _ + 1, [] => []
  | f + 1, c :: cs =>
    match stopHit prevW c cs with
    | 3 => stripGo f true (cs.drop 2)
    | 2 => stripGo f true (cs.drop 1)
    | _ =>
      if isStripChar c then stripGo f (isWordChar c) cs
      else c :: stripGo f (isWordChar c) cs

/-- Source `idFilterRegex.ReplaceAllString(id, "")` on a rune list. -/
def stripScan (prevW : Bool) (l : List Char) : List Char :=
  stripGo l.length prevW l

/-- Go `strings.HasPrefix(id, ".")`. -/
def startsWithDot (s : String) : Bool :=
  match s.data with
  | c :: _ => c == '.'
  | [] => false

/-- Source `canonicalID`: empty input stays empty; input with a
leading '.' (ccTLD style, e.g. `.de`, `.la`) is only upper-cased; any other
input has the `idFilterRegex` matches deleted and is then upper-cased. -/
def canonicalID (id : String) : String :=
  if id = "" then ""
  else if startsWithDot id then upperStr id
  else upperStr ⟨stripScan false id.data⟩

/-- An `orb.Point`: `x` is the longitude, `y` the latitude (the source
builds query points as `orb.Point(lng, lat)`). -/
structure GoPoint where
  x : ℚ
  y : ℚ
deriving DecidableEq

/-- An `orb.Ring`: an ordered list of points. -/
abbrev GoRing := List GoPoint

/-- An `orb.Polygon`: first ring is the outer boundary, the rest are holes. -/
abbrev GoPolygon := List GoRing

/-- An `orb.MultiPolygon`. -/
abbrev GoMultiPolygon := List GoPolygon

/-- An unnormalized fraction: numerator and denominator as integers.
Normalized `ℚ` arithmetic does not reduce inside the Lean kernel (its
normalization runs `Nat.gcd`, a well-founded recursion), so the containment
arithmetic below is carried out on raw numerator/denominator pairs with
plain integer operations, which is exact rational arithmetic whenever the
denominators are non-zero. -/
abbrev QF := Int × Int

def qf (q : ℚ) : QF := (q.num, (q.den : Int))

def qfAdd (x y : QF) : QF := (x.1 * y.2 + y.1 * x.2, x.2 * y.2)

def qfSub (x y : QF) : QF := (x.1 * y.2 - y.1 * x.2, x.2 * y.2)

def qfMul (x y : QF) : QF := (x.1 * y.1, x.2 * y.2)

def qfDiv (x y : QF) : QF := (x.1 * y.2, x.2 * y.1)

/-- Less-than `x < y` on fractions, sign-safe for either sign of the denominators:
multiply both sides by the positive square of the product of denominators. -/
def qfLt (x y : QF) : Bool := decide ((x.1 * y.2 - y.1 * x.2) * (x.2 * y.2) < 0)

/-- Modelled from the spec: the containment primitive is supplied by the
third-party `orb/planar` package (not part of this repository's sources);
the spec fixes it to standard planar point-in-polygon containment by the
even-odd ray-casting rule.  `edgeCrossesRay` says whether the horizontal
ray from `p` towards increasing x crosses the open edge from `a` to `b`:
the edge must straddle the horizontal line through `p`, and `p` must lie
to the left of the edge's intersection with that line,
`a.x + (p.y - a.y) * (b.x - a.x) / (b.y - a.y)`.  In the straddling branch
`b.y - a.y` is non-zero, so the division is exact. -/
def edgeCrossesRay (p a b : GoPoint) : Bool :=
  (qfLt (qf p.y) (qf a.y) != qfLt (qf p.y) (qf b.y)) &&
    qfLt (qf p.x)
      (qfAdd (qf a.x)
        (qfDiv (qfMul (qfSub (qf p.y) (qf a.y)) (qfSub (qf b.x) (qf a.x)))
          (qfSub (qf b.y) (qf a.y))))

/-- The edges of a ring: consecutive pairs plus the closing edge from the
last point back to the first. -/
def ringEdges (r : GoRing) : List (GoPoint × GoPoint) :=
  match r with
  | [] => []
  | p0 :: rest => r.zip (rest ++ [p0])

/-- Modelled from the spec: even-odd containment of a point in a single
ring (odd number of ray crossings). -/
def ringContains (r : GoRing) (p : GoPoint) : Bool :=
  (ringEdges r).foldl (fun acc e => acc != edgeCrossesRay p e.1 e.2) false

/-- Modelled from the spec: `planar.PolygonContains` — inside the outer
ring and in none of the hole rings (holes subtract).  The parser below
never produces an empty polygon, so the `[]` case is unreachable. -/
def polygonContains (pg : GoPolygon) (p : GoPoint) : Bool :=
  match pg with
  | [] => false
  | outer :: holes => ringContains outer p && holes.all (fun h => !ringContains h p)

/-- Modelled from the spec: `planar.MultiPolygonContains` — inside any
constituent polygon. -/
def multiPolygonContains (mp : GoMultiPolygon) (p : GoPoint) : Bool :=
  mp.any (fun pg => polygonContains pg p)

/-- A parsed geometry, as stored in `geojson.Feature.Geometry` by
`NewCountryCoder` (which only ever stores `orb.Point`, `orb.Polygon` or
`orb.MultiPolygon`); `Feature.geometry = none` models a Go `nil`. -/
inductive GoGeometry where
  | point (p : GoPoint)
  | polygon (pg : GoPolygon)
  | multiPolygon (mp : GoMultiPolygon)
deriving DecidableEq

/-- The properties map built by `NewCountryCoder` for one feature.  The Go
code stores it as `map[string]interface{}`, but every key is always present
and its value always comes from the corresponding typed
`RegionFeatureProperties` field, so a concrete record is a faithful model;
Go's zero values (empty string / nil slice) are the field defaults. -/
structure RegionProps where
  id : String := ""
  iso1A2 : String := ""
  iso1A3 : String := ""
  iso1N3 : String := ""
  m49 : String := ""
  wikidata : String := ""
  emojiFlag : String := ""
  ccTLD : String := ""
  nameEn : String := ""
  aliases : List String := []
  country : String := ""
  groups : List String := []
  members : List String := []
  level : String := ""
  isoStatus : String := ""
  driveSide : String := ""
  callingCodes : List String := []
deriving DecidableEq

/-- A `geojson.Feature` as built by `NewCountryCoder`. -/
structure Feature where
  properties : RegionProps
  geometry : Option GoGeometry := none
deriving DecidableEq

/-- The `CountryCoder`: the ordered feature list, the canonical-ID index
(as an insertion list — lookup takes the most recent insertion, i.e. Go
map overwrite semantics), and the level rank list. -/
structure CountryCoder where
  features : List Feature
  featuresByCode : List (String × Feature)
  levels : List String

/-- Go map read `cc.featuresByCode[cid]`: most recent insertion wins;
a missing key gives the zero value `nil`, i.e. `none`. -/
def mapGet (m : List (String × Feature)) (k : String) : Option Feature :=
  match m with
  | [] => none
  | (k0, v) :: rest => if k0 = k then some v else mapGet rest k

/-- The identifying strings collected by `cacheFeatureByIDs`: the nine
string properties, skipped when empty.  The alias block that follows in the
source never runs: `NewCountryCoder` stores the aliases as a Go `[]string`,
and the read asserts `Properties["aliases"].([]interface{})` — a Go type
assertion succeeds only on an identical dynamic type, so the `ok` check
always fails and aliases are never indexed. -/
def featureIDStrings (f : Feature) : List String :=
  [f.properties.id, f.properties.iso1A2, f.properties.iso1A3, f.properties.iso1N3,
    f.properties.m49, f.properties.wikidata, f.properties.emojiFlag, f.properties.ccTLD,
    f.properties.nameEn].filter (fun v => v ≠ "")

/-- Source `cacheFeatureByIDs`: register the feature under the canonical form of
each identifying string, skipping canonical forms that are empty. -/
def cacheFeatureByIDs (m : List (String × Feature)) (f : Feature) : List (String × Feature) :=
  (featureIDStrings f).foldl
    (fun acc id => if canonicalID id = "" then acc else (canonicalID id, f) :: acc) m

/-- The index-building loop of `NewCountryCoder` (each feature is appended
to `features` and cached by its IDs, in load order), with the fixed
`defaultLevels` rank list.  The JSON/geometry decoding that `NewCountryCoder`
performs before this loop is modelled separately (`coordsToPolygon`,
`coordsToMultiPolygon`); `mkCoder` takes the already-decoded features. -/
def defaultLevels : List String :=
  ["subterritory", "territory", "subcountryGroup", "country", "sharedLandform",
   "intermediateRegion", "subregion", "region", "subunion", "union",
   "unitedNations", "world"]

def mkCoder (fs : List Feature) : CountryCoder :=
  { features := fs
    featuresByCode := fs.foldl cacheFeatureByIDs []
    levels := defaultLevels }

/-- The containment test applied to one feature by the scan loops of
`SmallestFeature` and `CodeByLocation`: `nil` geometry is skipped, and the
`switch` covers only `orb.Polygon` and `orb.MultiPolygon` (an `orb.Point`
geometry falls into the default branch and never matches). -/
def smallestFeaturePred (pt : GoPoint) (f : Feature) : Bool :=
  match f.geometry with
  | some (GoGeometry.polygon pg) => polygonContains pg pt
  | some (GoGeometry.multiPolygon mp) => multiPolygonContains mp pt
  | _ => false

/-- Source `SmallestFeature`: first feature, in load order, whose geometry
contains the query point (`orb.Point(lng, lat)`). -/
def SmallestFeature (cc : CountryCoder) (lat lng : ℚ) : Option Feature :=
  cc.features.find? (smallestFeaturePred ⟨lng, lat⟩)

/-- Source `FeatureForID`: canonical-ID index lookup. -/
def FeatureForID (cc : CountryCoder) (id : String) : Option Feature :=
  mapGet cc.featuresByCode (canonicalID id)

/-- Source `countryFeature`: resolve the smallest feature, then follow its
`country` reference if non-empty, else re-fetch by its `iso1A2` code if
non-empty, else return the feature itself.  (The `.(string)` assertions on
the properties map always succeed, since `NewCountryCoder` stores strings
under these keys.) -/
def countryFeature (cc : CountryCoder) (lat lng : ℚ) : Option Feature :=
  match SmallestFeature cc lat lng with
  | none => none
  | some f =>
    if f.properties.country ≠ "" then FeatureForID cc f.properties.country
    else if f.properties.iso1A2 ≠ "" then FeatureForID cc f.properties.iso1A2
    else some f

/-- Source `hasProperty`: the key must exist in the properties map (the map built
by `NewCountryCoder` has exactly these seventeen keys); a string value
counts only when non-empty; a slice value is stored in a non-nil
`interface` and so always compares non-nil in Go, hence `true`. -/
def hasProperty (f : Feature) (prop : String) : Bool :=
  if prop = "id" then f.properties.id != ""
  else if prop = "iso1A2" then f.properties.iso1A2 != ""
  else if prop = "iso1A3" then f.properties.iso1A3 != ""
  else if prop = "iso1N3" then f.properties.iso1N3 != ""
  else if prop = "m49" then f.properties.m49 != ""
  else if prop = "wikidata" then f.properties.wikidata != ""
  else if prop = "emojiFlag" then f.properties.emojiFlag != ""
  else if prop = "ccTLD" then f.properties.ccTLD != ""
  else if prop = "nameEn" then f.properties.nameEn != ""
  else if prop = "country" then f.properties.country != ""
  else if prop = "level" then f.properties.level != ""
  else if prop = "isoStatus" then f.properties.isoStatus != ""
  else if prop = "driveSide" then f.properties.driveSide != ""
  else if prop = "aliases" then true
  else if prop = "groups" then true
  else if prop = "members" then true
  else if prop = "callingCodes" then true
  else false

/-- Source `levelIndex`: position of a level name in `cc.levels`, or -1. -/
def levelIndexFrom (level : String) : List String → Int → Int
  | [], _ => -1
  | l :: ls, i => if l = level then i else levelIndexFrom level ls (i + 1)

def levelIndex (cc : CountryCoder) (level : String) : Int :=
  levelIndexFrom level cc.levels 0

/-- Source `matchesLevel`: exact level match, or an index strictly above the
target's and at most the max's.  (The `.(string)` assertion on `level`
always succeeds.) -/
def matchesLevel (cc : CountryCoder) (f : Feature) (targetLevel maxLevel : String) : Bool :=
  if f.properties.level = targetLevel then true
  else
    decide (levelIndex cc f.properties.level > levelIndex cc targetLevel) &&
      decide (levelIndex cc f.properties.level ≤ levelIndex cc maxLevel)

/-- Source `CodingOptions` (zero values model absent JSON fields). -/
structure CodingOptions where
  level : String := ""
  maxLevel : String := ""
  withProp : String := ""

/-- Source `featureForLoc`: level defaults to `country`, max level to `world`;
a fast path for country-level coding (returning only when `countryFeature`
finds a feature that passes the property filter), then the general path:
smallest feature, level-argument validation, the smallest feature itself
if it matches, else `nil`.  The hierarchy walk over the smallest feature's
`groups` that the source writes after that point is dead code: the groups
are stored as a Go `[]string`, and `Properties["groups"].([]interface{})`
asserts an identical dynamic type, so its `ok` check always fails, the
walk loop never runs, and the function falls through to `return nil`. -/
def featureForLoc (cc : CountryCoder) (lat lng : ℚ) (opts : CodingOptions) : Option Feature :=
  let targetLevel := if opts.level = "" then "country" else opts.level
  let maxLevel := if opts.maxLevel = "" then "world" else opts.maxLevel
  let withProp := opts.withProp
  let fastResult : Option Feature :=
    if targetLevel = "country" then
      match countryFeature cc lat lng with
      | some f => if withProp == "" || hasProperty f withProp then some f else none
      | none => none
    else none
  match fastResult with
  | some f => some f
  | none =>
    match SmallestFeature cc lat lng with
    | none => none
    | some smallest =>
      if levelIndex cc targetLevel = -1 ∨ levelIndex cc maxLevel = -1 ∨
          levelIndex cc maxLevel < levelIndex cc targetLevel then none
      else if matchesLevel cc smallest targetLevel maxLevel
          && (withProp == "" || hasProperty smallest withProp) then some smallest
      else none

/-- Source `ISO1A2Code`: leveled lookup requiring the `iso1A2` property, then read
that property (always stored as a string, possibly empty). -/
def ISO1A2Code (cc : CountryCoder) (lat lng : ℚ) : String :=
  match featureForLoc cc lat lng { withProp := "iso1A2" } with
  | none => ""
  | some f => f.properties.iso1A2

/-- Source `NameEnByCode`: index lookup by code; a miss falls back to the
upper-cased input code.  When the lookup hits, the `nameEn` key is always
present as a string, so the hit branch returns that string even when it is
empty (the post-assertion fallback line is unreachable). -/
def NameEnByCode (cc : CountryCoder) (code : String) : String :=
  match FeatureForID cc code with
  | none => upperStr code
  | some f => f.properties.nameEn

/-- Source `getCodeFromFeature`: lower-cased `country`, else lower-cased `nameEn`,
else lower-cased `iso1A2`, else the sentinel `"??"`. -/
def getCodeFromFeature (f : Feature) : String :=
  if f.properties.country ≠ "" then lowerStr f.properties.country
  else if f.properties.nameEn ≠ "" then lowerStr f.properties.nameEn
  else if f.properties.iso1A2 ≠ "" then lowerStr f.properties.iso1A2
  else "??"

/-- Source `CodeByLocation`: lower-cased `ISO1A2Code` when non-empty; otherwise
the compatibility fallback scan (the same geometry loop as
`SmallestFeature`), and the sentinel `"??"` when nothing contains the
point. -/
def CodeByLocation (cc : CountryCoder) (lat lng : ℚ) : String :=
  let code := ISO1A2Code cc lat lng
  if code ≠ "" then lowerStr code
  else
    match cc.features.find? (smallestFeaturePred ⟨lng, lat⟩) with
    | some f => getCodeFromFeature f
    | none => "??"

/-- A decoded JSON value as produced by Go `json.Unmarshal` into
`interface{}`: numbers become `float64` (modelled by `ℚ`), strings,
booleans, `nil`, `[]interface{}` and `map[string]interface{}` (the object
payload is irrelevant to coordinate parsing, which only type-asserts
arrays and numbers, so it is a bare constructor). -/
inductive JValue where
  | num (v : ℚ)
  | str (s : String)
  | bool (b : Bool)
  | null
  | arr (elems : List JValue)
  | obj

/-- The point step of `coordsToPolygon`: the entry must assert to
`[]interface{}` with length at least 2, and its first two components must
assert to `float64`; then `orb.Point(lng, lat)` is kept. -/
def jPoint (j : JValue) : Option GoPoint :=
  match j with
  | JValue.arr (JValue.num lng :: JValue.num lat :: _) => some ⟨lng, lat⟩
  | _ => none

/-- The inner loop of `coordsToPolygon` over one ring's entries, appending
each successfully asserted point in order. -/
def ringPoints : List JValue → List GoPoint
  | [] => []
  | j :: rest =>
    match jPoint j with
    | some p => p :: ringPoints rest
    | none => ringPoints rest

/-- The outer loop of `coordsToPolygon` over the rings: entries that do not
assert to `[]interface{}` are skipped, and a ring whose point list comes
out empty is dropped (`len(points) > 0`). -/
def polygonRings : List JValue → List GoRing
  | [] => []
  | j :: rest =>
    match j with
    | JValue.arr pts =>
      if ringPoints pts = [] then polygonRings rest
      else ringPoints pts :: polygonRings rest
    | _ => polygonRings rest

/-- Source `coordsToPolygon`: `nil` unless the coordinates assert to
`[]interface{}` and at least one ring survives (`len(rings) > 0`). -/
def coordsToPolygon (coords : JValue) : Option GoPolygon :=
  match coords with
  | JValue.arr ringsJ =>
    if polygonRings ringsJ = [] then none else some (polygonRings ringsJ)
  | _ => none

/-- The loop of `coordsToMultiPolygon`: sub-polygons that parse to `nil`
are skipped. -/
def multiPolys : List JValue → List GoPolygon
  | [] => []
  | j :: rest =>
    match coordsToPolygon j with
    | some pg => pg :: multiPolys rest
    | none => multiPolys rest

/-- Source `coordsToMultiPolygon`: `nil` unless the coordinates assert to
`[]interface{}` and at least one sub-polygon survives. -/
def coordsToMultiPolygon (coords : JValue) : Option GoMultiPolygon :=
  match coords with
  | JValue.arr polysJ =>
    if multiPolys polysJ = [] then none else some (multiPolys polysJ)
  | _ => none

/-- Spec-side predicate: the feature's geometry contains the point — its
`Polygon` contains it, or any constituent polygon of its `MultiPolygon`
does (holes subtracting inside `polygonContains`). -/
def featureCovers (pt : GoPoint) (f : Feature) : Prop :=
  (∃ pg, f.geometry = some (GoGeometry.polygon pg) ∧ polygonContains pg pt = true) ∨
    (∃ mp, f.geometry = some (GoGeometry.multiPolygon mp) ∧
      ∃ poly ∈ mp, polygonContains poly pt = true)

/-- Containment is decidable: it coincides with the scan predicate. -/
instance (pt : GoPoint) (f : Feature) : Decidable (featureCovers pt f) :=
  decidable_of_iff (smallestFeaturePred pt f = true) (by
    unfold featureCovers smallestFeaturePred
    rcases f with ⟨props, _ | g⟩
    · simp
    · cases g with
      | point p => simp
      | polygon pg => simp
      | multiPolygon mp =>
        simp only [Option.some.injEq, multiPolygonContains, List.any_eq_true]
        constructor
        · intro hmem
          exact Or.inr ⟨mp, rfl, hmem⟩
        · rintro (⟨pg, h, _⟩ | ⟨mp2, h, hmem⟩)
          · cases h
          · obtain rfl : mp2 = mp := by
              injection h with h2
              exact h2.symm ▸ rfl
            exact hmem)

/-- Spec-side declarative form of the ring step: an entry contributes a
ring exactly when it is an array whose kept points are non-empty. -/
def specKeptRing (j : JValue) : Option GoRing :=
  match j with
  | JValue.arr pts => if ringPoints pts = [] then none else some (ringPoints pts)
  | _ => none

/-- Replace a `Point` geometry by no geometry, leaving everything else
untouched (used to state that `Point` features are invisible to the
coordinate scan). -/
def erasePointGeom (f : Feature) : Feature :=
  match f.geometry with
  | some (GoGeometry.point _) => { f with geometry := none }
  | _ => f

/-- Scenario-1 fixture: a 4-corner rectangle spanning lon -130..-60,
lat 20..50 (ring closed). -/
def usRect : GoPolygon :=
  [[⟨-130, 20⟩, ⟨-60, 20⟩, ⟨-60, 50⟩, ⟨-130, 50⟩, ⟨-130, 20⟩]]

def usFeature : Feature :=
  { properties := { id := "US", iso1A2 := "US", level := "country" }
    geometry := some (GoGeometry.polygon usRect) }

def earthFeature : Feature :=
  { properties := { id := "EARTH", level := "world" } }

/-- The two-feature dataset of spec scenario 1. -/
def scenario1 : List Feature := [usFeature, earthFeature]

/-- A 10×10 square at the origin, used by several fixtures. -/
def square10 : GoPolygon :=
  [[⟨0, 0⟩, ⟨10, 0⟩, ⟨10, 10⟩, ⟨0, 10⟩, ⟨0, 0⟩]]

/-- A sub-country region carrying its own `iso1A2` code and no `country`
reference (such regions exist in the dataset format; the fast path
re-fetches them by their own code). -/
def territoryFeature : Feature :=
  { properties := { id := "T1", iso1A2 := "T1", level := "territory" }
    geometry := some (GoGeometry.polygon square10) }

/-- A region whose `country` reference names an ID absent from the index. -/
def orphanFeature : Feature :=
  { properties := { id := "ORF", iso1A2 := "OF1", country := "XX", level := "territory" }
    geometry := some (GoGeometry.polygon square10) }

/-- An indexed region whose English name is empty. -/
def blankNameFeature : Feature :=
  { properties := { id := "AA", nameEn := "" } }

/-- A feature whose parsed geometry is a `Point`. -/
def pointFeature : Feature :=
  { properties := { id := "PT1" }
    geometry := some (GoGeometry.point ⟨-100, 40⟩) }

/-- A large coarse region listed before a small granular one, both
containing the probe point (5,5). -/
def bigFeature : Feature :=
  { properties := { id := "BIG", level := "country" }
    geometry := some (GoGeometry.polygon
      [[⟨-50, -50⟩, ⟨100, -50⟩, ⟨100, 100⟩, ⟨-50, 100⟩, ⟨-50, -50⟩]]) }

def smallFeature : Feature :=
  { properties := { id := "SMALL", level := "subterritory" }
    geometry := some (GoGeometry.polygon
      [[⟨4, 4⟩, ⟨6, 4⟩, ⟨6, 6⟩, ⟨4, 6⟩, ⟨4, 4⟩]]) }

lemma toNat_charOfNat (n : Nat) (h : n.isValidChar) : (Char.ofNat n).toNat = n := by
  unfold Char.ofNat
  rw [dif_pos h]
  rfl

lemma toNat_goToUpper_of_lower (c : Char) (h : 97 ≤ c.toNat ∧ c.toNat ≤ 122) :
    (goToUpper c).toNat = c.toNat - 32 := by
  unfold goToUpper
  rw [if_pos h]
  exact toNat_charOfNat _ (Or.inl (by omega))

lemma goToUpper_not_lower (c : Char) :
    ¬(97 ≤ (goToUpper c).toNat ∧ (goToUpper c).toNat ≤ 122) := by
  by_cases h : 97 ≤ c.toNat ∧ c.toNat ≤ 122
  · rw [toNat_goToUpper_of_lower c h]
    omega
  · unfold goToUpper
    rw [if_neg h]
    exact h

lemma goToUpper_of_not_lower (c : Char) (h : ¬(97 ≤ c.toNat ∧ c.toNat ≤ 122)) :
    goToUpper c = c := by
  unfold goToUpper
  rw [if_neg h]

lemma goToUpper_idem (c : Char) : goToUpper (goToUpper c) = goToUpper c :=
  goToUpper_of_not_lower _ (goToUpper_not_lower c)

lemma toNat_of_isStripChar (c : Char) (h : isStripChar c = true) :
    c.toNat = 45 ∨ c.toNat = 95 ∨ c.toNat = 32 ∨ c.toNat = 46 ∨ c.toNat = 44 ∨ c.toNat = 39 ∨
    c.toNat = 40 ∨ c.toNat = 41 ∨ c.toNat = 38 ∨ c.toNat = 91 ∨ c.toNat = 93 ∨ c.toNat = 47 := by
  simp only [isStripChar, Bool.or_eq_true, beq_iff_eq] at h
  rcases h with ((((((((((h|h)|h)|h)|h)|h)|h)|h)|h)|h)|h)|h <;> subst h <;> decide

lemma isStripChar_false_of_toNat (c : Char) (h1 : 65 ≤ c.toNat) (h2 : c.toNat ≤ 90) :
    isStripChar c = false := by
  cases hSC : isStripChar c with
  | false => rfl
  | true => have := toNat_of_isStripChar c hSC; omega

lemma isStripChar_goToUpper (c : Char) (h : isStripChar c = false) :
    isStripChar (goToUpper c) = false := by
  by_cases hl : 97 ≤ c.toNat ∧ c.toNat ≤ 122
  · exact isStripChar_false_of_toNat _ (by rw [toNat_goToUpper_of_lower c hl]; omega)
      (by rw [toNat_goToUpper_of_lower c hl]; omega)
  · rw [goToUpper_of_not_lower c hl]
    exact h

lemma char_beq_false_of_toNat (c d : Char) (h : c.toNat ≠ d.toNat) : (c == d) = false := by
  apply beq_eq_false_iff_ne.mpr
  rintro rfl
  exact h rfl

lemma stopHit_zero_of_head (p : Bool) (c : Char) (cs : List Char)
    (h : ¬(97 ≤ c.toNat ∧ c.toNat ≤ 122)) : stopHit p c cs = 0 := by
  have ha : (c == 'a') = false := char_beq_false_of_toNat c 'a' (by intro e; apply h; rw [e]; decide)
  have ht : (c == 't') = false := char_beq_false_of_toNat c 't' (by intro e; apply h; rw [e]; decide)
  have ho : (c == 'o') = false := char_beq_false_of_toNat c 'o' (by intro e; apply h; rw [e]; decide)
  have he : (c == 'e') = false := char_beq_false_of_toNat c 'e' (by intro e; apply h; rw [e]; decide)
  have hl : (c == 'l') = false := char_beq_false_of_toNat c 'l' (by intro e; apply h; rw [e]; decide)
  have hd : (c == 'd') = false := char_beq_false_of_toNat c 'd' (by intro e; apply h; rw [e]; decide)
  unfold stopHit
  split
  · rfl
  · cases cs with
    | nil => rfl
    | cons c2 cs2 =>
      cases cs2 with
      | nil => simp [ha, ht, ho, he, hl, hd]
      | cons c3 cs3 => simp [ha, ht, ho, he, hl, hd]

lemma stripGo_strip (f : Nat) :
    ∀ (p : Bool) (l : List Char), ∀ c ∈ stripGo f p l, isStripChar c = false := by
  induction f with
  | zero => intro p l c hc; simp [stripGo] at hc
  | succ f ih =>
    intro p l c hc
    cases l with
    | nil => simp [stripGo] at hc
    | cons d ds =>
      rcases h3 : stopHit p d ds with _ | _ | _ | n
      · rw [stripGo, h3] at hc
        by_cases hsc : isStripChar d
        · rw [if_pos hsc] at hc
          exact ih _ _ c hc
        · rw [if_neg hsc] at hc
          rcases List.mem_cons.mp hc with rfl | hc
          · exact Bool.eq_false_iff.mpr hsc
          · exact ih _ _ c hc
      · rw [stripGo, h3] at hc
        by_cases hsc : isStripChar d
        · rw [if_pos hsc] at hc
          exact ih _ _ c hc
        · rw [if_neg hsc] at hc
          rcases List.mem_cons.mp hc with rfl | hc
          · exact Bool.eq_false_iff.mpr hsc
          · exact ih _ _ c hc
      · rw [stripGo, h3] at hc
        exact ih _ _ c hc
      · rcases n with _ | n
        · rw [stripGo, h3] at hc
          exact ih _ _ c hc
        · rw [stripGo, h3] at hc
          by_cases hsc : isStripChar d
          · rw [if_pos hsc] at hc
            exact ih _ _ c hc
          · rw [if_neg hsc] at hc
            rcases List.mem_cons.mp hc with rfl | hc
            · exact Bool.eq_false_iff.mpr hsc
            · exact ih _ _ c hc

lemma stripGo_fixed (f : Nat) :
    ∀ (p : Bool) (l : List Char), l.length ≤ f →
      (∀ c ∈ l, isStripChar c = false ∧ ¬(97 ≤ c.toNat ∧ c.toNat ≤ 122)) →
      stripGo f p l = l := by
  induction f with
  | zero =>
    intro p l hf _
    rw [List.length_eq_zero.mp (Nat.le_zero.mp hf)]
    rfl
  | succ f ih =>
    intro p l hf hall
    cases l with
    | nil => rfl
    | cons c cs =>
      have hc := hall c (List.mem_cons_self c cs)
      rw [stripGo, stopHit_zero_of_head p c cs hc.2, if_neg (Bool.eq_false_iff.mp hc.1)]
      have hrec : stripGo f (isWordChar c) cs = cs :=
        ih _ cs (by simpa using hf) (fun d hd => hall d (List.mem_cons_of_mem c hd))
      rw [hrec]

lemma data_upperStr (s : String) : (upperStr s).data = s.data.map goToUpper := rfl

lemma string_mk_eq_empty_iff (l : List Char) : (⟨l⟩ : String) = "" ↔ l = [] := by
  constructor
  · intro h
    have := congrArg String.data h
    simpa using this
  · rintro rfl
    rfl

lemma upperStr_eq_empty_iff (s : String) : upperStr s = "" ↔ s = "" := by
  cases s with
  | mk l =>
    rw [show upperStr ⟨l⟩ = ⟨l.map goToUpper⟩ from rfl, string_mk_eq_empty_iff,
      List.map_eq_nil_iff]
    exact (string_mk_eq_empty_iff l).symm

lemma upperStr_upperStr (s : String) : upperStr (upperStr s) = upperStr s := by
  cases s with
  | mk l =>
    show (⟨(l.map goToUpper).map goToUpper⟩ : String) = ⟨l.map goToUpper⟩
    rw [List.map_map]
    congr 1
    exact List.map_congr_left fun c _ => goToUpper_idem c

lemma startsWithDot_cons (c : Char) (cs : List Char) :
    startsWithDot ⟨c :: cs⟩ = (c == '.') := rfl

lemma startsWithDot_upperStr (s : String) (h : startsWithDot s = true) :
    startsWithDot (upperStr s) = true := by
  cases s with
  | mk l =>
    cases l with
    | nil => simp [startsWithDot] at h
    | cons c cs =>
      rw [startsWithDot_cons] at h
      have hc : c = '.' := beq_iff_eq.mp h
      subst hc
      show startsWithDot ⟨('.' :: cs).map goToUpper⟩ = true
      rw [List.map_cons, startsWithDot_cons]
      decide

lemma stripped_chars (s : String) :
    ∀ c ∈ (upperStr ⟨stripScan false s.data⟩).data,
      isStripChar c = false ∧ ¬(97 ≤ c.toNat ∧ c.toNat ≤ 122) := by
  intro c hc
  rw [data_upperStr] at hc
  obtain ⟨d, hd, rfl⟩ := List.mem_map.mp hc
  exact ⟨isStripChar_goToUpper d (stripGo_strip _ _ _ d hd), goToUpper_not_lower d⟩

lemma canonicalID_empty : canonicalID "" = "" := rfl

lemma canonicalID_of_dot (s : String) (h0 : s ≠ "") (hdot : startsWithDot s = true) :
    canonicalID s = upperStr s := by
  unfold canonicalID
  rw [if_neg h0, if_pos hdot]

lemma canonicalID_of_plain (s : String) (h0 : s ≠ "") (hdot : startsWithDot s = false) :
    canonicalID s = upperStr ⟨stripScan false s.data⟩ := by
  unfold canonicalID
  rw [if_neg h0, if_neg (by simp [hdot])]

lemma isStripChar_dot : isStripChar '.' = true := by decide

lemma char_eq_of_toNat (c d : Char) (h : c.toNat = d.toNat) : c = d := by
  apply Char.ext
  exact UInt32.toNat.inj h

lemma startsWithDot_eq_false_of (s : String) (h : ∀ c ∈ s.data, isStripChar c = false) :
    startsWithDot s = false := by
  cases s with
  | mk l =>
    cases l with
    | nil => rfl
    | cons c cs =>
      rw [startsWithDot_cons]
      apply char_beq_false_of_toNat
      intro hcn
      have hc := h c (List.mem_cons_self c cs)
      rw [char_eq_of_toNat c '.' hcn, isStripChar_dot] at hc
      cases hc

lemma canonicalID_idem (s : String) : canonicalID (canonicalID s) = canonicalID s := by
  by_cases h0 : s = ""
  · subst h0
    rfl
  by_cases hdot : startsWithDot s = true
  · rw [canonicalID_of_dot s h0 hdot]
    rw [canonicalID_of_dot (upperStr s) (fun h => h0 ((upperStr_eq_empty_iff s).mp h))
      (startsWithDot_upperStr s hdot)]
    exact upperStr_upperStr s
  · rw [canonicalID_of_plain s h0 (Bool.not_eq_true _ ▸ Bool.eq_false_iff.mpr hdot)]
    set r : String := upperStr ⟨stripScan false s.data⟩ with hr
    by_cases hre : r = ""
    · rw [hre]
      rfl
    · have hchars := stripped_chars s
      rw [← hr] at hchars
      have hrdot : startsWithDot r = false :=
        startsWithDot_eq_false_of r (fun c hc => (hchars c hc).1)
      rw [canonicalID_of_plain r hre hrdot]
      have hfix : stripScan false r.data = r.data :=
        stripGo_fixed _ _ _ (le_refl _) hchars
      rw [hfix]
      show upperStr r = r
      rw [hr]
      exact upperStr_upperStr _

lemma featureCovers_iff_pred (pt : GoPoint) (f : Feature) :
    featureCovers pt f ↔ smallestFeaturePred pt f = true := by
  unfold featureCovers smallestFeaturePred
  rcases f with ⟨props, _ | g⟩
  · simp
  · cases g with
    | point p => simp
    | polygon pg => simp
    | multiPolygon mp =>
      simp only [Option.some.injEq, multiPolygonContains, List.any_eq_true]
      constructor
      · rintro (⟨pg, h, _⟩ | ⟨mp2, h, hmem⟩)
        · cases h
        · obtain rfl : mp2 = mp := by
            injection h with h2
            exact h2.symm ▸ rfl
          exact hmem
      · intro hmem
        exact Or.inr ⟨mp, rfl, hmem⟩

lemma erasePointGeom_pred (pt : GoPoint) (f : Feature) :
    smallestFeaturePred pt (erasePointGeom f) = smallestFeaturePred pt f := by
  rcases f with ⟨props, _ | g⟩
  · rfl
  · cases g <;> rfl

lemma erasePointGeom_of_pred (pt : GoPoint) (f : Feature)
    (h : smallestFeaturePred pt f = true) : erasePointGeom f = f := by
  rcases f with ⟨props, _ | g⟩
  · rfl
  · cases g with
    | point p => cases h
    | polygon pg => rfl
    | multiPolygon mp => rfl

lemma matchesLevel_bounds (cc : CountryCoder) (f : Feature) (t m : String)
    (hmi : ¬(levelIndex cc m < levelIndex cc t))
    (h : matchesLevel cc f t m = true) :
    levelIndex cc t ≤ levelIndex cc f.properties.level ∧
      levelIndex cc f.properties.level ≤ levelIndex cc m := by
  unfold matchesLevel at h
  by_cases he : f.properties.level = t
  · rw [he]
    omega
  · rw [if_neg he] at h
    simp only [Bool.and_eq_true, decide_eq_true_eq] at h
    omega

lemma ringPoints_eq_filterMap : ∀ l : List JValue, ringPoints l = l.filterMap jPoint := by
  intro l
  induction l with
  | nil => rfl
  | cons j rest ih =>
    unfold ringPoints
    cases hj : jPoint j with
    | none => rw [List.filterMap_cons_none hj, ih]
    | some p => rw [List.filterMap_cons_some hj, ih]

lemma specKeptRing_non_arr (j : JValue) (h : ∀ l, j ≠ JValue.arr l) :
    specKeptRing j = none := by
  cases j with
  | arr l => exact absurd rfl (h l)
  | num v => rfl
  | str s => rfl
  | bool b => rfl
  | null => rfl
  | obj => rfl

lemma polygonRings_eq_filterMap : ∀ l : List JValue,
    polygonRings l = l.filterMap specKeptRing := by
  intro l
  induction l with
  | nil => rfl
  | cons j rest ih =>
    cases j with
    | arr pts =>
      show (if ringPoints pts = [] then polygonRings rest
        else ringPoints pts :: polygonRings rest) = _
      by_cases h0 : ringPoints pts = []
      · rw [if_pos h0, List.filterMap_cons_none (by simp [specKeptRing, h0]), ih]
      · rw [if_neg h0, List.filterMap_cons_some
          (show specKeptRing (JValue.arr pts) = some (ringPoints pts) by
            simp [specKeptRing, h0]), ih]
    | num v => rw [show polygonRings (JValue.num v :: rest) = polygonRings rest from rfl,
        List.filterMap_cons_none rfl, ih]
    | str s => rw [show polygonRings (JValue.str s :: rest) = polygonRings rest from rfl,
        List.filterMap_cons_none rfl, ih]
    | bool b => rw [show polygonRings (JValue.bool b :: rest) = polygonRings rest from rfl,
        List.filterMap_cons_none rfl, ih]
    | null => rw [show polygonRings (JValue.null :: rest) = polygonRings rest from rfl,
        List.filterMap_cons_none rfl, ih]
    | obj => rw [show polygonRings (JValue.obj :: rest) = polygonRings rest from rfl,
        List.filterMap_cons_none rfl, ih]

lemma multiPolys_eq_filterMap : ∀ l : List JValue,
    multiPolys l = l.filterMap coordsToPolygon := by
  intro l
  induction l with
  | nil => rfl
  | cons j rest ih =>
    unfold multiPolys
    cases hj : coordsToPolygon j with
    | none => rw [List.filterMap_cons_none hj, ih]
    | some pg => rw [List.filterMap_cons_some hj, ih]

lemma jPoint_some_iff (j : JValue) (p : GoPoint) :
    jPoint j = some p ↔
      ∃ rest, j = JValue.arr (JValue.num p.x :: JValue.num p.y :: rest) := by
  constructor
  · intro h
    cases j with
    | arr elems =>
      rcases elems with _ | ⟨a, _ | ⟨b, rest⟩⟩
      · cases h
      · cases a <;> cases h
      · cases a with
        | num v =>
          cases b with
          | num w =>
            have hp : p = ⟨v, w⟩ := by
              have : some (⟨v, w⟩ : GoPoint) = some p := h
              exact (Option.some.injEq _ _ ▸ this).symm ▸ rfl
            refine ⟨rest, ?_⟩
            rw [hp]
          | str s => cases h
          | bool b2 => cases h
          | null => cases h
          | arr l2 => cases h
          | obj => cases h
        | str s => cases h
        | bool b2 => cases h
        | null => cases h
        | arr l2 => cases h
        | obj => cases h
    | num v => cases h
    | str s => cases h
    | bool b => cases h
    | null => cases h
    | obj => cases h
  · rintro ⟨rest, rfl⟩
    rfl

lemma coordsToPolygon_none_iff (coords : JValue) :
    coordsToPolygon coords = none ↔
      ∀ l, coords = JValue.arr l → polygonRings l = [] := by
  cases coords with
  | arr l0 =>
    show (if polygonRings l0 = [] then none else some (polygonRings l0)) = none ↔ _
    by_cases h0 : polygonRings l0 = []
    · rw [if_pos h0]
      constructor
      · intro _ l he
        injection he with h2
        rw [← h2]
        exact h0
      · intro _
        rfl
    · rw [if_neg h0]
      constructor
      · intro h
        cases h
      · intro hall
        exact absurd (hall l0 rfl) h0
  | num v => simp [coordsToPolygon]
  | str s => simp [coordsToPolygon]
  | bool b => simp [coordsToPolygon]
  | null => simp [coordsToPolygon]
  | obj => simp [coordsToPolygon]

lemma coordsToMultiPolygon_none_iff (coords : JValue) :
    coordsToMultiPolygon coords = none ↔
      ∀ l, coords = JValue.arr l → ∀ j ∈ l, coordsToPolygon j = none := by
  cases coords with
  | arr l0 =>
    show (if multiPolys l0 = [] then none else some (multiPolys l0)) = none ↔ _
    rw [show (∀ l, JValue.arr l0 = JValue.arr l → ∀ j ∈ l, coordsToPolygon j = none) ↔
        (∀ j ∈ l0, coordsToPolygon j = none) from
      ⟨fun h => h l0 rfl, fun h l he => by injection he with h2; rw [← h2]; exact h⟩]
    rw [← List.filterMap_eq_nil_iff (f := coordsToPolygon), ← multiPolys_eq_filterMap]
    by_cases h0 : multiPolys l0 = []
    · rw [if_pos h0]
      simp [h0]
    · rw [if_neg h0]
      simp [h0]
  | num v => simp [coordsToMultiPolygon]
  | str s => simp [coordsToMultiPolygon]
  | bool b => simp [coordsToMultiPolygon]
  | null => simp [coordsToMultiPolygon]
  | obj => simp [coordsToMultiPolygon]

/-- Claim C1 (corrected): when no region's `Polygon` or `MultiPolygon`
geometry contains the point, `CodeByLocation` returns the sentinel string
`"??"` — not the empty string (`ISO1A2Code` comes back empty, and the
compatibility fallback scan then finds no containing feature either). -/
theorem c1_theorem (fs : List Feature) (lat lng : ℚ)
    (h : ∀ f ∈ fs, ¬ featureCovers ⟨lng, lat⟩ f) :
    CodeByLocation (mkCoder fs) lat lng = "??" := by
  have hnone : fs.find? (smallestFeaturePred ⟨lng, lat⟩) = none :=
    List.find?_eq_none.mpr fun f hf hp => h f hf ((featureCovers_iff_pred _ _).mpr hp)
  have hsmall : SmallestFeature (mkCoder fs) lat lng = none := hnone
  have hcf : countryFeature (mkCoder fs) lat lng = none := by
    unfold countryFeature
    rw [hsmall]
  have hloc : featureForLoc (mkCoder fs) lat lng { withProp := "iso1A2" } = none := by
    unfold featureForLoc
    simp only [hcf, hsmall]
    rfl
  have hiso : ISO1A2Code (mkCoder fs) lat lng = "" := by
    unfold ISO1A2Code
    rw [hloc]
  have hnone2 : List.find? (smallestFeaturePred ⟨lng, lat⟩) (mkCoder fs).features = none := hnone
  unfold CodeByLocation
  simp only [hiso, hnone2]
  rfl

/-- Claim C1 witness: the amended statement applied to scenario 1 at (0, 0). -/
theorem c1_witness : CodeByLocation (mkCoder scenario1) 0 0 = "??" :=
  c1_theorem scenario1 0 0 (by decide)

/-- Claim C1 counterexample: on the two-feature dataset of scenario 1 the
query at (0, 0) — covered by no geometry — returns `"??"`, not `""`. -/
theorem c1_counterexample :
    CodeByLocation (mkCoder scenario1) 0 0 = "??" ∧
    CodeByLocation (mkCoder scenario1) 0 0 ≠ "" :=
  ⟨by decide, by decide⟩

/-- Claim C2 (corrected): the normalizer strips the stop words only in
their lower-case spelling — `idFilterRegex` has no `(?i)` flag, so the
matching is case-sensitive — strips the listed punctuation wherever it
occurs, and upper-cases the remainder.  Hence `canonicalID "united-states"`
and `canonicalID "UnitedStates"` agree, and lower-case stop words are
stripped, but `canonicalID "The United States"` keeps the capitalized
`The` and yields a different key. -/
theorem c2_theorem :
    canonicalID "united-states" = "UNITEDSTATES" ∧
    canonicalID "UnitedStates" = "UNITEDSTATES" ∧
    canonicalID "the united states" = "UNITEDSTATES" ∧
    canonicalID "The United States" = "THEUNITEDSTATES" ∧
    canonicalID "u-n_i t.e,d(s)t&a/t[e]s" = "UNITEDSTATES" :=
  ⟨by decide, by decide, by decide, by decide, by decide⟩

/-- Claim C2 counterexample: the claim asserts the stop words are matched
case-insensitively and that `normalize "The United States"` equals
`normalize "united-states"`; on the code the capitalized `The` survives and
the two keys differ. -/
theorem c2_counterexample :
    canonicalID "The United States" = "THEUNITEDSTATES" ∧
    canonicalID "united-states" = "UNITEDSTATES" ∧
    canonicalID "The United States" ≠ canonicalID "united-states" :=
  ⟨by decide, by decide, by decide⟩

/-- Claim C3 (corrected): on every request whose effective target level is
not `country` — so the country fast path is not taken — a feature returned
by `featureForLoc` has its level index between the target level's index and
the max level's index (level defaults: target `country`, max `world`).
The fast path is exempt: see the counterexample. -/
theorem c3_theorem (cc : CountryCoder) (lat lng : ℚ) (opts : CodingOptions) (f : Feature)
    (htarget : (if opts.level = "" then "country" else opts.level) ≠ "country")
    (hres : featureForLoc cc lat lng opts = some f) :
    levelIndex cc (if opts.level = "" then "country" else opts.level) ≤
        levelIndex cc f.properties.level ∧
      levelIndex cc f.properties.level ≤
        levelIndex cc (if opts.maxLevel = "" then "world" else opts.maxLevel) := by
  unfold featureForLoc at hres
  simp only [if_neg htarget] at hres
  set t := if opts.level = "" then "country" else opts.level with ht
  set m := if opts.maxLevel = "" then "world" else opts.maxLevel with hm
  rcases hs : SmallestFeature cc lat lng with _ | smallest
  · simp only [hs] at hres
    cases hres
  · simp only [hs] at hres
    by_cases hv : levelIndex cc t = -1 ∨ levelIndex cc m = -1 ∨
        levelIndex cc m < levelIndex cc t
    · rw [if_pos hv] at hres
      cases hres
    · rw [if_neg hv] at hres
      push_neg at hv
      have hnm : ¬(levelIndex cc m < levelIndex cc t) := by omega
      by_cases hmatch : (matchesLevel cc smallest t m
          && (opts.withProp == "" || hasProperty smallest opts.withProp)) = true
      · rw [if_pos hmatch] at hres
        cases hres
        have hm2 := hmatch
        simp only [Bool.and_eq_true] at hm2
        exact matchesLevel_bounds cc f t m hnm hm2.1
      · rw [if_neg hmatch] at hres
        cases hres

/-- Claim C3 witness: the general path at target level `territory` — the
smallest containing region is itself territory-level, so it is returned,
and its level index lies between `territory` and `world`. -/
theorem c3_witness :
    featureForLoc (mkCoder [territoryFeature]) 5 5 { level := "territory" } =
      some territoryFeature ∧
    levelIndex (mkCoder [territoryFeature]) "territory" ≤
      levelIndex (mkCoder [territoryFeature]) territoryFeature.properties.level ∧
    levelIndex (mkCoder [territoryFeature]) territoryFeature.properties.level ≤
      levelIndex (mkCoder [territoryFeature]) "world" := by
  refine ⟨by decide, ?_⟩
  exact c3_theorem (mkCoder [territoryFeature]) 5 5 { level := "territory" } territoryFeature
    (by decide) (by decide)

/-- Claim C3 counterexample: with the default target level `country` the
fast path returns a `territory`-level region that carries its own `iso1A2`
code — a region strictly more granular than the target level. -/
theorem c3_counterexample :
    featureForLoc (mkCoder [territoryFeature]) 5 5 {} = some territoryFeature ∧
    territoryFeature.properties.level = "territory" ∧
    levelIndex (mkCoder [territoryFeature]) "territory" <
      levelIndex (mkCoder [territoryFeature]) "country" :=
  ⟨by decide, rfl, by decide⟩

/-- Claim C4 (corrected): a leveled request whose effective target level is
not `country` — i.e. not served by the fast path — returns `nil` whenever
the target level is unknown, the max level is unknown, or the max level is
more granular than the target, for every query point.  When the target
level is `country` the fast path runs before this validation and can
return a feature: see the counterexample. -/
theorem c4_theorem (cc : CountryCoder) (lat lng : ℚ) (opts : CodingOptions)
    (htarget : (if opts.level = "" then "country" else opts.level) ≠ "country")
    (hbad : levelIndex cc (if opts.level = "" then "country" else opts.level) = -1 ∨
      levelIndex cc (if opts.maxLevel = "" then "world" else opts.maxLevel) = -1 ∨
      levelIndex cc (if opts.maxLevel = "" then "world" else opts.maxLevel) <
        levelIndex cc (if opts.level = "" then "country" else opts.level)) :
    featureForLoc cc lat lng opts = none := by
  unfold featureForLoc
  simp only [if_neg htarget]
  rcases hs : SmallestFeature cc lat lng with _ | smallest
  · simp only [hs]
  · simp only [hs]
    rw [if_pos hbad]

/-- Claim C4 witness: an unknown target level (with a point inside the
scenario-1 rectangle) yields `nil`. -/
theorem c4_witness :
    featureForLoc (mkCoder scenario1) 40 (-100) { level := "bogus" } = none :=
  c4_theorem (mkCoder scenario1) 40 (-100) { level := "bogus" } (by decide)
    (Or.inl (by decide))

/-- Claim C4 counterexample: target level `country` with max level
`subterritory` is an invalid combination (max more granular than target),
yet the fast path answers before the validation and returns the US
feature instead of `nil`. -/
theorem c4_counterexample :
    featureForLoc (mkCoder scenario1) 40 (-100)
        { level := "country", maxLevel := "subterritory" } = some usFeature ∧
    levelIndex (mkCoder scenario1) "subterritory" <
      levelIndex (mkCoder scenario1) "country" :=
  ⟨by decide, by decide⟩

/-- Claim C5 (confirmed): `SmallestFeature` is exactly the first-match scan
in load order — it returns `some f` precisely when `f`'s geometry contains
the point and `f` is the first such feature in the list (features with
absent geometry, or whose geometry does not contain the point, are passed
over), and `none` precisely when no feature's geometry contains the point;
and on a concrete catalog where a large coarse region precedes a small
granular one, both containing the probe point, the earlier and larger one
is returned. -/
theorem c5_theorem (fs : List Feature) (lat lng : ℚ) :
    (∀ f, SmallestFeature (mkCoder fs) lat lng = some f ↔
      featureCovers ⟨lng, lat⟩ f ∧ ∃ l1 l2, fs = l1 ++ f :: l2 ∧
        ∀ g ∈ l1, ¬ featureCovers ⟨lng, lat⟩ g) ∧
    (SmallestFeature (mkCoder fs) lat lng = none ↔
      ∀ f ∈ fs, ¬ featureCovers ⟨lng, lat⟩ f) ∧
    SmallestFeature (mkCoder [bigFeature, smallFeature]) 5 5 = some bigFeature := by
  refine ⟨?_, ?_, by decide⟩
  · intro f
    show fs.find? (smallestFeaturePred ⟨lng, lat⟩) = some f ↔ _
    rw [List.find?_eq_some]
    simp only [featureCovers_iff_pred, Bool.not_eq_true', Bool.not_eq_true]
  · show fs.find? (smallestFeaturePred ⟨lng, lat⟩) = none ↔ _
    rw [List.find?_eq_none]
    simp only [featureCovers_iff_pred]

/-- Claim C6 (confirmed): the canonical-ID normalizer is idempotent, the
empty string maps to itself, and any input with a leading '.' is returned
upper-cased with nothing stripped. -/
theorem c6_theorem (s t : String) (h : startsWithDot t = true) :
    canonicalID (canonicalID s) = canonicalID s ∧
    canonicalID "" = "" ∧
    canonicalID t = upperStr t := by
  refine ⟨canonicalID_idem s, rfl, ?_⟩
  have ht : t ≠ "" := by
    intro he
    subst he
    simp [startsWithDot] at h
  exact canonicalID_of_dot t ht h

/-- Claim C6 witness at concrete inputs. -/
theorem c6_witness :
    canonicalID (canonicalID "The United-States") = canonicalID "The United-States" ∧
    canonicalID "" = "" ∧
    canonicalID ".de" = upperStr ".de" :=
  c6_theorem "The United-States" ".de" (by decide)

/-- Claim C7 (corrected): `NameEnByCode` returns the indexed region's
`nameEn` whenever the canonicalized code resolves — even when that name is
the empty string — and the upper-cased input code exactly when the lookup
misses. -/
theorem c7_theorem (cc : CountryCoder) (code : String) :
    (FeatureForID cc code = none → NameEnByCode cc code = upperStr code) ∧
    ∀ f, FeatureForID cc code = some f → NameEnByCode cc code = f.properties.nameEn := by
  constructor
  · intro h
    unfold NameEnByCode
    rw [h]
  · intro f h
    unfold NameEnByCode
    rw [h]

/-- Claim C7 witness: the unknown code `zz` misses the index and yields the
upper-cased code `ZZ`. -/
theorem c7_witness : NameEnByCode (mkCoder [blankNameFeature]) "zz" = "ZZ" := by
  have h := (c7_theorem (mkCoder [blankNameFeature]) "zz").1 (by decide)
  rw [h]
  decide

/-- Claim C7 counterexample: the code `aa` resolves to an indexed region
whose `nameEn` is empty; the claim predicts the fallback `"AA"`, but the
code returns the empty name. -/
theorem c7_counterexample :
    NameEnByCode (mkCoder [blankNameFeature]) "aa" = "" ∧
    upperStr "aa" = "AA" ∧ ("" : String) ≠ "AA" :=
  ⟨by decide, by decide, by decide⟩

/-- Claim C8 (confirmed): polygon coordinate parsing keeps, within each
ring, exactly the entries whose first two components are numeric, in order
(the loops compute `filterMap`s); a ring left with zero valid points is
dropped; a polygon left with zero valid rings — and a multipolygon left
with zero valid sub-polygons — yields no geometry (`nil`), never an error,
for every input coordinates value (non-array input included). -/
theorem c8_theorem (coords : JValue) (entries : List JValue) :
    ringPoints entries = entries.filterMap jPoint ∧
    polygonRings entries = entries.filterMap specKeptRing ∧
    multiPolys entries = entries.filterMap coordsToPolygon ∧
    (coordsToPolygon coords = none ↔
      ∀ l, coords = JValue.arr l → polygonRings l = []) ∧
    (coordsToMultiPolygon coords = none ↔
      ∀ l, coords = JValue.arr l → ∀ j ∈ l, coordsToPolygon j = none) ∧
    (∀ p, jPoint coords = some p ↔
      ∃ rest, coords = JValue.arr (JValue.num p.x :: JValue.num p.y :: rest)) :=
  ⟨ringPoints_eq_filterMap entries, polygonRings_eq_filterMap entries,
   multiPolys_eq_filterMap entries, coordsToPolygon_none_iff coords,
   coordsToMultiPolygon_none_iff coords, fun p => jPoint_some_iff coords p⟩

/-- Claim C8 witness: concrete parses — a polygon whose only ring contains
no numeric pair is `nil`; a non-array multipolygon is `nil`; a ring keeps
exactly its valid entries. -/
theorem c8_witness :
    coordsToPolygon (JValue.arr [JValue.arr [JValue.str "x"], JValue.bool true]) = none ∧
    coordsToMultiPolygon JValue.obj = none ∧
    ringPoints [JValue.arr [JValue.num 1, JValue.num 2], JValue.str "bad"] =
      [JValue.arr [JValue.num 1, JValue.num 2], JValue.str "bad"].filterMap jPoint := by
  refine ⟨?_, ?_, (c8_theorem JValue.obj _).1⟩
  · refine ((c8_theorem (JValue.arr [JValue.arr [JValue.str "x"], JValue.bool true])
      []).2.2.2.1).mpr ?_
    intro l hl
    injection hl with h2
    rw [← h2]
    rfl
  · refine ((c8_theorem JValue.obj []).2.2.2.2.1).mpr ?_
    intro l hl
    cases hl


/-- Claim C9 (confirmed): features whose parsed geometry is a `Point` are
invisible to the coordinate scan — erasing every `Point` geometry from the
catalog leaves `SmallestFeature` unchanged at every query point, and the
returned feature never carries a `Point` geometry. -/
theorem c9_theorem (fs : List Feature) (lat lng : ℚ) :
    SmallestFeature (mkCoder (fs.map erasePointGeom)) lat lng =
      SmallestFeature (mkCoder fs) lat lng ∧
    ∀ f p0, SmallestFeature (mkCoder fs) lat lng = some f →
      f.geometry ≠ some (GoGeometry.point p0) := by
  constructor
  · show (fs.map erasePointGeom).find? (smallestFeaturePred ⟨lng, lat⟩) =
      fs.find? (smallestFeaturePred ⟨lng, lat⟩)
    rw [List.find?_map erasePointGeom fs]
    have hcomp : (smallestFeaturePred ⟨lng, lat⟩ ∘ erasePointGeom) =
        smallestFeaturePred ⟨lng, lat⟩ :=
      funext fun f => erasePointGeom_pred _ f
    rw [hcomp]
    rcases hf : fs.find? (smallestFeaturePred ⟨lng, lat⟩) with _ | f
    · rfl
    · show some (erasePointGeom f) = some f
      rw [erasePointGeom_of_pred _ f (List.find?_some hf)]
  · intro f p0 hf hgeom
    have hp := List.find?_some (p := smallestFeaturePred ⟨lng, lat⟩) hf
    rw [smallestFeaturePred, hgeom] at hp
    cases hp

/-- Claim C9 witness: on a catalog whose first feature has `Point` geometry
and whose second is the scenario-1 rectangle, the scan skips the `Point`
feature, erasing it changes nothing, and the result is the rectangle. -/
theorem c9_witness :
    SmallestFeature (mkCoder ([pointFeature, usFeature].map erasePointGeom)) 40 (-100) =
      SmallestFeature (mkCoder [pointFeature, usFeature]) 40 (-100) ∧
    usFeature.geometry ≠ some (GoGeometry.point ⟨-100, 40⟩) ∧
    SmallestFeature (mkCoder [pointFeature, usFeature]) 40 (-100) = some usFeature :=
  ⟨(c9_theorem [pointFeature, usFeature] 40 (-100)).1,
   (c9_theorem [pointFeature, usFeature] 40 (-100)).2 usFeature ⟨-100, 40⟩ (by decide),
   by decide⟩

/-- Claim C10 (confirmed): in the country fast path, when the smallest
containing region carries a non-empty `country` reference, `countryFeature`
is exactly the index lookup of that reference — in particular `none` when
the referenced ID is not indexed, with no fallback to the region itself or
to its `iso1A2` code. -/
theorem c10_theorem (cc : CountryCoder) (lat lng : ℚ) (f : Feature)
    (h1 : SmallestFeature cc lat lng = some f) (h2 : f.properties.country ≠ "") :
    countryFeature cc lat lng = FeatureForID cc f.properties.country := by
  unfold countryFeature
  rw [h1]
  show (if f.properties.country ≠ "" then FeatureForID cc f.properties.country
    else if f.properties.iso1A2 ≠ "" then FeatureForID cc f.properties.iso1A2 else some f) =
    FeatureForID cc f.properties.country
  rw [if_pos h2]

/-- Claim C10 witness: a region whose `country` reference `XX` is absent
from the index, although the region itself carries an `iso1A2` code;
`countryFeature` returns `none`. -/
theorem c10_witness :
    countryFeature (mkCoder [orphanFeature]) 5 5 =
      FeatureForID (mkCoder [orphanFeature]) "XX" ∧
    FeatureForID (mkCoder [orphanFeature]) "XX" = none ∧
    orphanFeature.properties.iso1A2 ≠ "" :=
  ⟨c10_theorem (mkCoder [orphanFeature]) 5 5 orphanFeature (by decide) (by decide),
   by decide, by decide⟩
